import Mathlib

/-!
Shallow embedding of `src/main.py` of the hocr-pdf-service repository.

The service has two relevant pieces of code:

* `parse_hocr_words(hocr_html)` — scans the hOCR markup with the Python regex

  `<span class=['"]ocrx_word['"][^>]*title=['"]bbox (\d+) (\d+) (\d+) (\d+)['"][^>]*>([^<]+)</span>`

  under `re.IGNORECASE`, and converts every match `(x1, y1, x2, y2, text)`
  into a word record `(text.strip(), int(x1), int(y1), int(x2), int(y2))`.

* `convert_hocr_to_pdf()` — the request handler: validates the presence of
  the `hocr` and `originalPdf` fields, base64-decodes the PDF, parses the
  hOCR, and builds the JSON response.  It never modifies the PDF: the
  `searchablePdf` field of the response is the `originalPdf` input verbatim.

Python strings are modelled as `List Char`; `re.findall` is modelled by a
scanner that, exactly like the Python engine, tries the pattern at every
position from left to right and resumes after the end of each match.  The
backtracking of the single nondeterministic piece of the pattern (the first
greedy `[^>]*`) is modelled faithfully: longer runs are preferred.  Casing
is handled on the ASCII range (the inputs of interest are ASCII markup).
-/

set_option maxRecDepth 4000

namespace HocrPdf

/-- Python strings are modelled as lists of characters. -/
abbrev PyStr := List Char

/-- The ASCII single-quote character (code point 39). -/
def squote : Char := Char.ofNat 39

/-- The ASCII double-quote character (code point 34). -/
def dquote : Char := Char.ofNat 34

/-- ASCII lower-casing on code points: upper-case basic latin letters are
shifted by 32, every other code point is left unchanged.  This is the case
folding `re.IGNORECASE` performs on the ASCII range. -/
def lowerN (c : Char) : Nat :=
  if 65 ≤ c.toNat ∧ c.toNat ≤ 90 then c.toNat + 32 else c.toNat

/-- Case-insensitive comparison of a pattern character `p` with an input
character `c`, as `re.IGNORECASE` does on the ASCII range. -/
def chCI (p c : Char) : Bool := lowerN p == lowerN c

/-- The `\d` character class, restricted to ASCII digits. -/
def isDig (c : Char) : Bool := 48 ≤ c.toNat && c.toNat ≤ 57

/-- Matching a literal piece of the pattern case-insensitively: returns the
input with the literal stripped from the front, or `none` when the input
does not start with the literal. -/
def stripCI : PyStr → PyStr → Option PyStr
  | [], s => some s
  | _ :: _, [] => none
  | p :: ps, c :: cs => if chCI p c then stripCI ps cs else none

/-- The character class `[squote dquote]` of the pattern: consume one quote
character (the two quote positions of the pattern are independent classes,
there is no back-reference in the regex). -/
def takeQuote : PyStr → Option PyStr
  | [] => none
  | c :: cs => if c = squote ∨ c = dquote then some cs else none

/-- `(\d+)` followed by a non-digit: the greedy maximal run of digits.  The
run must be non-empty.  (Greediness is forced here: in the pattern every
`(\d+)` is followed by a character that is not a digit, so the maximal run
is the only possible match.) -/
def takeDigits (s : PyStr) : Option (PyStr × PyStr) :=
  if (s.takeWhile isDig).isEmpty then none
  else some (s.takeWhile isDig, s.dropWhile isDig)

/-- `[^>]*>` : skip to the first greater-than sign and consume it.  (The
greedy `[^>]*` cannot contain a greater-than sign, so the consumed sign is
necessarily the first one.) -/
def skipToGt : PyStr → Option PyStr
  | [] => none
  | c :: cs => if c = '>' then some cs else skipToGt cs

/-- `([^<]+)` followed by a literal starting with a less-than sign: the
greedy maximal non-empty run of characters other than a less-than sign. -/
def takeNonLt (s : PyStr) : Option (PyStr × PyStr) :=
  if (s.takeWhile (fun c => !(c = '<'))).isEmpty then none
  else some (s.takeWhile (fun c => !(c = '<')), s.dropWhile (fun c => !(c = '<')))

/-- The five captured groups of one regex match, as captured strings — the
shape of one element of the list `re.findall` returns. -/
structure RawMatch where
  x1 : PyStr
  y1 : PyStr
  x2 : PyStr
  y2 : PyStr
  text : PyStr
deriving DecidableEq

/-- The tail of the pattern after the first `[^>]*`:

`title=['"]bbox (\d+) (\d+) (\d+) (\d+)['"][^>]*>([^<]+)</span>` -/
def contTitle (s : PyStr) : Option (RawMatch × PyStr) := do
  let s1 ← stripCI "title=".data s
  let s2 ← takeQuote s1
  let s3 ← stripCI "bbox ".data s2
  let (g1, s4) ← takeDigits s3
  let s5 ← stripCI " ".data s4
  let (g2, s6) ← takeDigits s5
  let s7 ← stripCI " ".data s6
  let (g3, s8) ← takeDigits s7
  let s9 ← stripCI " ".data s8
  let (g4, s10) ← takeDigits s9
  let s11 ← takeQuote s10
  let s12 ← skipToGt s11
  let (g5, s13) ← takeNonLt s12
  let s14 ← stripCI "</span>".data s13
  some (⟨g1, g2, g3, g4, g5⟩, s14)

/-- The first greedy `[^>]*` of the pattern followed by `contTitle`: a
backtracking engine prefers the longest run of non-`>` characters, so the
deepest position at which `contTitle` succeeds wins. -/
def greedyTitle : PyStr → Option (RawMatch × PyStr)
  | [] => contTitle []
  | c :: cs =>
    if c = '>' then contTitle (c :: cs)
    else
      match greedyTitle cs with
      | some res => some res
      | none => contTitle (c :: cs)

/-- One attempt of the full pattern at the current position:

`<span class=['"]ocrx_word['"]` then `greedyTitle`. -/
def matchAt (s : PyStr) : Option (RawMatch × PyStr) := do
  let s1 ← stripCI "<span class=".data s
  let s2 ← takeQuote s1
  let s3 ← stripCI "ocrx_word".data s2
  let s4 ← takeQuote s3
  greedyTitle s4

/-- The scan loop of `re.findall`: try the pattern at each position from
left to right; after a match, resume right after its end.  The fuel is an
upper bound on the number of steps; every step consumes at least one
character, so `s.length` steps always suffice (see `scanAux_congr`). -/
def scanAux : Nat → PyStr → List RawMatch
  | 0, _ => []
  | _ + 1, [] => []
  | fuel + 1, c :: cs =>
    match matchAt (c :: cs) with
    | some (m, r) => m :: scanAux fuel r
    | none => scanAux fuel cs

/-- `re.findall(word_pattern, hocr_html, re.IGNORECASE)` : all
non-overlapping matches, leftmost first, as lists of captured groups. -/
def scanMatches (s : PyStr) : List RawMatch := scanAux s.length s

/-- One parsed word: the dictionary built for each match in
`parse_hocr_words`, with keys `text`, `x1`, `y1`, `x2`, `y2`. -/
structure Word where
  text : PyStr
  x1 : Int
  y1 : Int
  x2 : Int
  y2 : Int
deriving DecidableEq

/-- The whitespace characters stripped by Python `str.strip()` (ASCII
range: space, tab, newline, carriage return, vertical tab, form feed). -/
def isPySpace (c : Char) : Bool :=
  c.toNat = 32 || c.toNat = 9 || c.toNat = 10 || c.toNat = 13 || c.toNat = 11 || c.toNat = 12

/-- Python `str.strip()`: drop leading and trailing whitespace. -/
def pyStrip (s : PyStr) : PyStr :=
  ((s.dropWhile isPySpace).reverse.dropWhile isPySpace).reverse

/-- The numeric value of a string of decimal digits. -/
def natOfDigits (s : PyStr) : Nat :=
  s.foldl (fun a c => 10 * a + (c.toNat - 48)) 0

/-- Python `int(str)` : optional surrounding whitespace, optional sign, then
one or more decimal digits; raises `ValueError` otherwise (modelled as
`Except.error`).  Underscore digit separators are not modelled — the call
sites only ever receive groups captured by `(\d+)`. -/
def pyInt (s : PyStr) : Except PyStr Int :=
  if (pyStrip s).take 1 = ['-'] then
    if (pyStrip s).drop 1 ≠ [] ∧ ((pyStrip s).drop 1).all isDig then
      .ok (-(natOfDigits ((pyStrip s).drop 1) : Int))
    else .error s
  else if (pyStrip s).take 1 = ['+'] then
    if (pyStrip s).drop 1 ≠ [] ∧ ((pyStrip s).drop 1).all isDig then
      .ok (natOfDigits ((pyStrip s).drop 1) : Int)
    else .error s
  else
    if pyStrip s ≠ [] ∧ (pyStrip s).all isDig then .ok (natOfDigits (pyStrip s) : Int)
    else .error s

/-- The body of the per-match loop of `parse_hocr_words`: unpack the five
groups, strip the text, convert the four coordinates with `int()`.  A
`ValueError` of a conversion is an `Except.error` (the loop catches it and
skips the element). -/
def mkWordE (m : RawMatch) : Except PyStr Word := do
  let x1 ← pyInt m.x1
  let y1 ← pyInt m.y1
  let x2 ← pyInt m.x2
  let y2 ← pyInt m.y2
  .ok { text := pyStrip m.text, x1 := x1, y1 := y1, x2 := x2, y2 := y2 }

/-- The `try` block of `parse_hocr_words`: `re.findall`, then the loop over
the matches whose per-element `try/except (ValueError, IndexError)` skips an
element whose conversion fails and keeps going (`filterMap` + `toOption`).
No operation of the block itself can raise (the regex is a fixed valid
pattern and `re.findall` is total on strings), so the block always returns
`ok`; the surrounding `except` of the source is the `error` case of
`parse_hocr_words` below. -/
def parse_hocr_words_body (hocr_html : PyStr) : Except PyStr (List Word) :=
  .ok ((scanMatches hocr_html).filterMap (fun m => (mkWordE m).toOption))

/-- `parse_hocr_words(hocr_html)` : the `try` block, with any escaping error
turned into the empty list by the outer `except`. -/
def parse_hocr_words (hocr_html : PyStr) : List Word :=
  match parse_hocr_words_body hocr_html with
  | .ok ws => ws
  | .error _ => []

/-- Python `sep.join(parts)` for `sep` a single space, as used for
`full_text` in the handler. -/
def joinSpace : List PyStr → PyStr
  | [] => []
  | [x] => x
  | x :: xs => x ++ ' ' :: joinSpace xs

/-- The value of one base64 alphabet character, `none` for characters
outside the alphabet. -/
def b64Val (c : Char) : Option Nat :=
  if 65 ≤ c.toNat ∧ c.toNat ≤ 90 then some (c.toNat - 65)
  else if 97 ≤ c.toNat ∧ c.toNat ≤ 122 then some (c.toNat - 97 + 26)
  else if 48 ≤ c.toNat ∧ c.toNat ≤ 57 then some (c.toNat - 48 + 52)
  else if c = '+' then some 62
  else if c = '/' then some 63
  else none

/-- Decode base64 in groups of four characters; the last group may carry one
or two padding characters.  A leftover group of fewer than four characters
is the `binascii.Error: Incorrect padding` case. -/
def b64Groups : PyStr → Except PyStr (List Nat)
  | [] => .ok []
  | a :: b :: c :: d :: rest =>
    match b64Val a, b64Val b with
    | some va, some vb =>
      if c = '=' then
        if d = '=' ∧ rest = [] then .ok [va * 4 + vb / 16]
        else .error "Invalid base64-encoded string".data
      else
        match b64Val c with
        | some vc =>
          if d = '=' then
            if rest = [] then .ok [va * 4 + vb / 16, (vb % 16) * 16 + vc / 4]
            else .error "Invalid base64-encoded string".data
          else
            match b64Val d with
            | some vd => do
              let t ← b64Groups rest
              .ok ((va * 4 + vb / 16) :: ((vb % 16) * 16 + vc / 4) :: ((vc % 4) * 64 + vd) :: t)
            | none => .error "Invalid base64-encoded string".data
        | none => .error "Invalid base64-encoded string".data
    | _, _ => .error "Invalid base64-encoded string".data
  | _ => .error "Incorrect padding".data

/-- `base64.b64decode(s)` on a `str` argument: the string must be ASCII;
characters outside the alphabet are discarded, and the remaining characters
are decoded in groups of four (an incomplete trailing group raises).  The
result is the list of decoded bytes. -/
def pyB64Decode (s : PyStr) : Except PyStr (List Nat) :=
  if s.all (fun c => c.toNat < 128) then
    b64Groups (s.filter (fun c => (b64Val c).isSome || c = '='))
  else .error "ASCII encoding failed".data

/-- The request record of the `/convert` endpoint: the two fields the
handler reads with `data.get(..., '')` (a missing field and an empty field
are indistinguishable downstream, both yield the empty string). -/
structure ConvertRequest where
  hocr : PyStr
  originalPdf : PyStr
deriving DecidableEq

/-- The JSON response of the `/convert` endpoint.  Absent keys are `none`.
The real-time fields `processingTimeMs` and `timestamp` are not modelled. -/
structure ConvertResponse where
  success : Bool
  searchablePdf : Option PyStr := none
  wordsExtracted : Option Nat := none
  extractedText : Option PyStr := none
  error : Option PyStr := none
  message : Option PyStr := none
deriving DecidableEq

/-- `convert_hocr_to_pdf()` : the handler body after JSON validation,
paired with the HTTP status code.  Field checks, base64 validation, the
zero-words branch and the response construction follow the source line by
line; `searchablePdf` is always the incoming `originalPdf` string. -/
def convert_hocr_to_pdf (req : ConvertRequest) : ConvertResponse × Nat :=
  if req.hocr = [] then
    ({ success := false, error := some "Missing hocr data".data }, 400)
  else if req.originalPdf = [] then
    ({ success := false, error := some "Missing originalPdf data".data }, 400)
  else
    match pyB64Decode req.originalPdf with
    | .error _ => ({ success := false, error := some "Invalid base64 PDF data".data }, 400)
    | .ok _pdfBytes =>
      let words := parse_hocr_words req.hocr
      if words = [] then
        ({ success := true, searchablePdf := some req.originalPdf,
           wordsExtracted := some 0,
           message := some "No words found in hOCR - returned original PDF".data }, 200)
      else
        let full_text := joinSpace ((words.map Word.text).filter (fun t => !t.isEmpty))
        ({ success := true, searchablePdf := some req.originalPdf,
           wordsExtracted := some words.length,
           extractedText := some (if full_text.isEmpty then [] else full_text.take 500),
           message := some ("hOCR processed successfully - ".data ++
             (Nat.repr words.length).data ++ " words extracted".data) }, 200)

/-- Modelled from the spec: the repository contains no synthesizer code
(the handler returns the original PDF untouched), so the page-height
constant of the PDF overlay synthesizer is taken from the spec, 792
user-space units, the height of a US Letter page. -/
def PAGE_HEIGHT : Int := 792

/-- Modelled from the spec: the page-assignment heuristic of the PDF
overlay synthesizer, `pageIndex = floor(word.y1 / PAGE_HEIGHT)` (floor
division, as Python `//`). -/
def pageIndex (w : Word) : Int := Int.fdiv w.y1 PAGE_HEIGHT

/-- Parameters of one canonically written word span

`<span class=Q(cls)Q title=Qbbox d1 d2 d3 d4Q>txtQ</span>`

with `Q` the single-quote character; the class token `cls` is a parameter
so that any casing of `ocrx_word` is covered. -/
structure SpanSpec where
  cls : PyStr
  d1 : PyStr
  d2 : PyStr
  d3 : PyStr
  d4 : PyStr
  txt : PyStr
deriving DecidableEq

/-- A non-empty string of ASCII digits. -/
def DigitStr (s : PyStr) : Prop := s ≠ [] ∧ ∀ c ∈ s, isDig c = true

instance (s : PyStr) : Decidable (DigitStr s) := by
  unfold DigitStr
  infer_instance

/-- A well-formed canonical word span: the class token is `ocrx_word` up to
ASCII casing, the four bounding-box fields are non-empty digit strings, and
the text content is non-empty and free of markup. -/
def SpanSpec.wf (sp : SpanSpec) : Prop :=
  sp.cls.map lowerN = "ocrx_word".data.map lowerN ∧
  DigitStr sp.d1 ∧ DigitStr sp.d2 ∧ DigitStr sp.d3 ∧ DigitStr sp.d4 ∧
  sp.txt ≠ [] ∧ '<' ∉ sp.txt

instance (sp : SpanSpec) : Decidable sp.wf := by
  unfold SpanSpec.wf
  infer_instance

/-- The markup text of a canonical word span. -/
def SpanSpec.render (sp : SpanSpec) : PyStr :=
  "<span class=".data ++ [squote] ++ sp.cls ++ [squote] ++ [' '] ++
    "title=".data ++ [squote] ++ "bbox ".data ++
    sp.d1 ++ [' '] ++ sp.d2 ++ [' '] ++ sp.d3 ++ [' '] ++ sp.d4 ++
    [squote] ++ ['>'] ++ sp.txt ++ "</span>".data

/-- The raw regex match a well-formed canonical span produces. -/
def SpanSpec.raw (sp : SpanSpec) : RawMatch :=
  ⟨sp.d1, sp.d2, sp.d3, sp.d4, sp.txt⟩

/-- The word record a well-formed canonical span parses to. -/
def SpanSpec.word (sp : SpanSpec) : Word :=
  { text := pyStrip sp.txt,
    x1 := (natOfDigits sp.d1 : Int), y1 := (natOfDigits sp.d2 : Int),
    x2 := (natOfDigits sp.d3 : Int), y2 := (natOfDigits sp.d4 : Int) }

/-- A hOCR document built from canonical word spans: before each span an
arbitrary separator string, and a final trailing string. -/
def docOf (ps : List (PyStr × SpanSpec)) (final : PyStr) : PyStr :=
  ps.foldr (fun p acc => p.1 ++ p.2.render ++ acc) final

/-- Separator text that starts no tag: it contains no less-than sign. -/
def SepOk (l : PyStr) : Prop := ∀ c ∈ l, c ≠ '<'

instance (l : PyStr) : Decidable (SepOk l) := by
  unfold SepOk
  infer_instance

/-- A junk character for a malformed bounding-box field: not a digit, and
none of the few characters with which it could interfere with the
surrounding markup or with the letters the pattern looks for. -/
def JunkChar (c : Char) : Prop :=
  isDig c = false ∧ c ≠ '<' ∧ c ≠ '>' ∧ c ≠ squote ∧ c ≠ dquote ∧
    c ≠ ' ' ∧ c ≠ 't' ∧ c ≠ 'T'

instance (c : Char) : Decidable (JunkChar c) := by
  unfold JunkChar
  infer_instance

/-- A malformed bounding-box directive, given as the space-separated fields
that stand after `bbox `: either a coordinate is missing (fewer than four
fields) or some field contains a non-numeric character. -/
def MalformedBbox (comps : List PyStr) : Prop :=
  comps ≠ [] ∧
  (∀ comp ∈ comps, comp ≠ [] ∧ ∀ c ∈ comp, isDig c = true ∨ JunkChar c) ∧
  (comps.length ≤ 3 ∨
    (comps.length = 4 ∧ ∃ comp ∈ comps, ∃ c ∈ comp, isDig c = false))

instance (comps : List PyStr) : Decidable (MalformedBbox comps) := by
  unfold MalformedBbox
  infer_instance

/-- A word span whose bounding-box directive is malformed: identical to the
canonical rendering except that the four digit fields are replaced by the
given fields. -/
def renderBad (cls : PyStr) (comps : List PyStr) (txt : PyStr) : PyStr :=
  "<span class=".data ++ [squote] ++ cls ++ [squote] ++ [' '] ++
    "title=".data ++ [squote] ++ "bbox ".data ++ joinSpace comps ++
    [squote] ++ ['>'] ++ txt ++ "</span>".data

/-- A character at which no `title=` literal and no tag end can start: the
kind of character over which the backtracking of the first `[^>]*` of the
pattern walks without any effect. -/
def Inert (c : Char) : Prop := c ≠ '>' ∧ c ≠ 't' ∧ c ≠ 'T'

instance (c : Char) : Decidable (Inert c) := by
  unfold Inert
  infer_instance

/-- The canonical span of the end-to-end example of the spec. -/
def exSpan : SpanSpec :=
  ⟨"ocrx_word".data, "10".data, "20".data, "50".data, "40".data, "Hello".data⟩

/-- An upper-cased class token variant of the example span. -/
def exSpanUpper : SpanSpec :=
  ⟨"OCRX_WORD".data, "10".data, "20".data, "50".data, "40".data, "Hello".data⟩

/-- A span that satisfies the informal description of a well-formed word
span — it carries the class token `ocrx_word` and a `title` attribute with
a `bbox` directive of four non-negative integers — but lists the `title`
attribute before the `class` attribute. -/
def revAttrSpan : PyStr :=
  "<span title=".data ++ [squote] ++ "bbox 1 2 3 4".data ++ [squote] ++
    " class=".data ++ [squote] ++ "ocrx_word".data ++ [squote] ++ ">Hi</span>".data

/-- A span whose text content is a single space and whose bounding box is
reversed (larger first coordinates): well-formed for the regex, so it is
parsed, producing a word with empty text and `x2 < x1`, `y2 < y1`. -/
def degenerateSpan : SpanSpec :=
  ⟨"ocrx_word".data, "50".data, "20".data, "10".data, "5".data, [' ']⟩

/-- A second span with ordinary text, used next to `degenerateSpan`. -/
def hiSpan : SpanSpec :=
  ⟨"ocrx_word".data, "0".data, "0".data, "1".data, "1".data, "Hi".data⟩

/-- A request whose hOCR parses to a whitespace-only word followed by the
word `Hi` (the base64 field decodes to the three bytes `ABC`). -/
def reqTwoWords : ConvertRequest :=
  ⟨degenerateSpan.render ++ hiSpan.render, "QUJD".data⟩

/-- A request whose hOCR contains no word span at all. -/
def reqNoWords : ConvertRequest := ⟨"x".data, "QUJD".data⟩

/-- A request whose hOCR is the single example span. -/
def reqOneWord : ConvertRequest := ⟨exSpan.render, "QUJD".data⟩

/-- The invariant of every raw match the scanner yields: the four
coordinate groups were captured by `(\d+)`, so they are non-empty digit
strings. -/
def GoodGroups (m : RawMatch) : Prop :=
  DigitStr m.x1 ∧ DigitStr m.y1 ∧ DigitStr m.x2 ∧ DigitStr m.y2

/-- The part of `contTitle` after the `bbox ` literal, factored out so the
failure on a malformed bounding box can be analysed in isolation; by
construction `contTitle` on a title that starts `title=`, quote, `bbox `
equals `bboxChain` on the remainder (`contTitle_as_chain`). -/
def bboxChain (s : PyStr) : Option (RawMatch × PyStr) := do
  let (g1, s4) ← takeDigits s
  let s5 ← stripCI " ".data s4
  let (g2, s6) ← takeDigits s5
  let s7 ← stripCI " ".data s6
  let (g3, s8) ← takeDigits s7
  let s9 ← stripCI " ".data s8
  let (g4, s10) ← takeDigits s9
  let s11 ← takeQuote s10
  let s12 ← skipToGt s11
  let (g5, s13) ← takeNonLt s12
  let s14 ← stripCI "</span>".data s13
  some (⟨g1, g2, g3, g4, g5⟩, s14)

/-! ### Character-level facts -/

theorem char_toNat_inj {a b : Char} (h : a.toNat = b.toNat) : a = b := by
  have ha := Char.ofNat_toNat a
  have hb := Char.ofNat_toNat b
  rw [← ha, ← hb, h]

theorem toNat_ne_of_ne {a b : Char} (h : a ≠ b) : a.toNat ≠ b.toNat :=
  fun he => h (char_toNat_inj he)

theorem chCI_t_false {c : Char} (h1 : c ≠ 't') (h2 : c ≠ 'T') : chCI 't' c = false := by
  have e1 : Char.toNat 't' = 116 := by decide
  have e2 : Char.toNat 'T' = 84 := by decide
  have n1 : c.toNat ≠ 116 := e1 ▸ toNat_ne_of_ne h1
  have n2 : c.toNat ≠ 84 := e2 ▸ toNat_ne_of_ne h2
  unfold chCI lowerN
  simp only [e1]
  split <;> split <;> simp <;> omega

theorem chCI_lt_false {c : Char} (h : c ≠ '<') : chCI '<' c = false := by
  have e1 : Char.toNat '<' = 60 := by decide
  have n1 : c.toNat ≠ 60 := e1 ▸ toNat_ne_of_ne h
  unfold chCI lowerN
  simp only [e1]
  split <;> split <;> simp <;> omega

theorem inert_of_isDig {c : Char} (h : isDig c = true) : Inert c := by
  unfold isDig at h
  simp only [Bool.and_eq_true, decide_eq_true_eq] at h
  refine ⟨?_, ?_, ?_⟩ <;> intro he <;> subst he <;> revert h <;> decide

theorem not_isDig_space : isDig ' ' = false := by decide

theorem not_isDig_squote : isDig squote = false := by decide

/-! ### Literal matching -/

theorem stripCI_self (p r : PyStr) : stripCI p (p ++ r) = some r := by
  induction p with
  | nil => rfl
  | cons c cs ih => simp [stripCI, chCI, ih]

theorem stripCI_of_map {l p : PyStr} (h : l.map lowerN = p.map lowerN) (r : PyStr) :
    stripCI p (l ++ r) = some r := by
  induction p generalizing l with
  | nil =>
    have : l = [] := by simpa using congrArg List.length h
    subst this
    rfl
  | cons q qs ih =>
    match l with
    | [] => exact absurd (congrArg List.length h) (by simp)
    | c :: cs =>
      simp only [List.map_cons, List.cons.injEq] at h
      have hc : chCI q c = true := by
        unfold chCI
        simp [h.1]
      simpa [stripCI, hc] using ih h.2

theorem stripCI_len {p : PyStr} : ∀ {s r : PyStr}, stripCI p s = some r → r.length ≤ s.length := by
  induction p with
  | nil => intro s r h; cases h; simp
  | cons q qs ih =>
    intro s r h
    match s with
    | [] => cases h
    | c :: cs =>
      unfold stripCI at h
      split at h
      · exact Nat.le_trans (ih h) (by simp)
      · cases h

theorem stripCI_len_lt {p : PyStr} (hp : p ≠ []) {s r : PyStr}
    (h : stripCI p s = some r) : r.length < s.length := by
  match p, hp with
  | q :: qs, _ =>
    match s with
    | [] => cases h
    | c :: cs =>
      unfold stripCI at h
      split at h
      · simpa using Nat.lt_succ_of_le (stripCI_len h)
      · cases h

theorem takeQuote_len {s r : PyStr} (h : takeQuote s = some r) : r.length < s.length := by
  match s with
  | [] => cases h
  | c :: cs =>
    by_cases hc : c = squote ∨ c = dquote
    · simp only [takeQuote, if_pos hc, Option.some.injEq] at h
      subst h
      simp
    · simp only [takeQuote, if_neg hc] at h
      cases h

theorem takeWhile_append_exact {p : Char → Bool} {a : PyStr} (b : Char) (r : PyStr)
    (ha : ∀ c ∈ a, p c = true) (hb : p b = false) :
    (a ++ b :: r).takeWhile p = a ∧ (a ++ b :: r).dropWhile p = b :: r := by
  induction a with
  | nil => simp [List.takeWhile, List.dropWhile, hb]
  | cons c cs ih =>
    have hc : p c = true := ha c (by simp)
    have ih' := ih (fun x hx => ha x (by simp [hx]))
    simp [List.takeWhile, List.dropWhile, hc, ih'.1, ih'.2]

theorem takeDigits_exact {ds : PyStr} (b : Char) (r : PyStr)
    (h1 : ds ≠ []) (h2 : ∀ c ∈ ds, isDig c = true) (hb : isDig b = false) :
    takeDigits (ds ++ b :: r) = some (ds, b :: r) := by
  have h := takeWhile_append_exact b r h2 hb
  simp [takeDigits, h.1, h.2, h1]

theorem takeDigits_sp {ds : PyStr} (r : PyStr) (h : DigitStr ds) :
    takeDigits (ds ++ ' ' :: r) = some (ds, ' ' :: r) :=
  takeDigits_exact ' ' r h.1 h.2 not_isDig_space

theorem takeDigits_q {ds : PyStr} (r : PyStr) (h : DigitStr ds) :
    takeDigits (ds ++ squote :: r) = some (ds, squote :: r) :=
  takeDigits_exact squote r h.1 h.2 not_isDig_squote

theorem takeDigits_some {s ds r : PyStr} (h : takeDigits s = some (ds, r)) :
    ds = s.takeWhile isDig ∧ r = s.dropWhile isDig ∧ ds ≠ [] := by
  unfold takeDigits at h
  split at h
  · cases h
  · rename_i hne
    rw [Option.some.injEq, Prod.mk.injEq] at h
    refine ⟨h.1.symm, h.2.symm, ?_⟩
    rw [h.1] at hne
    intro hds
    subst hds
    simp at hne

theorem takeDigits_len {s ds r : PyStr} (h : takeDigits s = some (ds, r)) :
    r.length ≤ s.length := by
  obtain ⟨-, h2, -⟩ := takeDigits_some h
  subst h2
  have := congrArg List.length (List.takeWhile_append_dropWhile isDig s)
  simp only [List.length_append] at this
  omega

theorem takeDigits_digits {s ds r : PyStr} (h : takeDigits s = some (ds, r)) :
    DigitStr ds := by
  obtain ⟨h1, -, h3⟩ := takeDigits_some h
  subst h1
  exact ⟨h3, fun c hc => List.mem_takeWhile_imp hc⟩

theorem takeNonLt_exact {t : PyStr} (r : PyStr) (h1 : t ≠ []) (h2 : '<' ∉ t) :
    takeNonLt (t ++ '<' :: r) = some (t, '<' :: r) := by
  have h := @takeWhile_append_exact (fun c => !(c = '<')) t '<' r
    (fun c hc => by
      simp only [Bool.not_eq_true', decide_eq_false_iff_not]
      exact fun hce => h2 (hce ▸ hc))
    (by simp)
  simp [takeNonLt, h.1, h.2, h1]

theorem takeNonLt_len {s t r : PyStr} (h : takeNonLt s = some (t, r)) :
    r.length ≤ s.length := by
  unfold takeNonLt at h
  split at h
  · cases h
  · rw [Option.some.injEq, Prod.mk.injEq] at h
    rw [← h.2]
    have := congrArg List.length
      (List.takeWhile_append_dropWhile (fun c => !(c = '<')) s)
    simp only [List.length_append] at this
    omega

theorem skipToGt_len : ∀ {s r : PyStr}, skipToGt s = some r → r.length < s.length := by
  intro s
  induction s with
  | nil => intro r h; cases h
  | cons c cs ih =>
    intro r h
    unfold skipToGt at h
    split at h
    · cases h; simp
    · exact Nat.lt_trans (ih h) (by simp)

theorem takeQuote_squote (r : PyStr) : takeQuote (squote :: r) = some r := by
  simp [takeQuote]

theorem skipToGt_gt (r : PyStr) : skipToGt ('>' :: r) = some r := by
  simp [skipToGt]

/-! ### The tail of the pattern, `contTitle` -/

theorem contTitle_nil : contTitle [] = none := rfl

theorem contTitle_cons_none {c : Char} (h : chCI 't' c = false) (s : PyStr) :
    contTitle (c :: s) = none := by
  have h1 : stripCI "title=".data (c :: s) = none := by
    show stripCI ('t' :: 'i' :: 't' :: 'l' :: 'e' :: '=' :: []) (c :: s) = none
    simp [stripCI, h]
  simp [contTitle, h1]

theorem contTitle_cons_inert {c : Char} (h : Inert c) (s : PyStr) :
    contTitle (c :: s) = none :=
  contTitle_cons_none (chCI_t_false h.2.1 h.2.2) s

theorem contTitle_tl_none (s : PyStr) : contTitle ('t' :: 'l' :: s) = none := by
  have h1 : stripCI "title=".data ('t' :: 'l' :: s) = none := by
    show stripCI ('t' :: 'i' :: 't' :: 'l' :: 'e' :: '=' :: []) ('t' :: 'l' :: s) = none
    have c1 : chCI 't' 't' = true := by decide
    have c2 : chCI 'i' 'l' = false := by decide
    simp [stripCI, c1, c2]
  simp [contTitle, h1]

theorem stripCI_title (r : PyStr) :
    stripCI ('t' :: 'i' :: 't' :: 'l' :: 'e' :: '=' :: []) ('t' :: 'i' :: 't' :: 'l' :: 'e' :: '=' :: r) = some r :=
  stripCI_self "title=".data r

theorem stripCI_bbox (r : PyStr) :
    stripCI ('b' :: 'b' :: 'o' :: 'x' :: ' ' :: []) ('b' :: 'b' :: 'o' :: 'x' :: ' ' :: r) = some r :=
  stripCI_self "bbox ".data r

theorem stripCI_space (r : PyStr) : stripCI (' ' :: []) (' ' :: r) = some r :=
  stripCI_self " ".data r

theorem stripCI_endspan (r : PyStr) :
    stripCI ('<' :: '/' :: 's' :: 'p' :: 'a' :: 'n' :: '>' :: []) ('<' :: '/' :: 's' :: 'p' :: 'a' :: 'n' :: '>' :: r) = some r :=
  stripCI_self "</span>".data r

theorem contTitle_render {d1 d2 d3 d4 txt : PyStr} (rest : PyStr)
    (h1 : DigitStr d1) (h2 : DigitStr d2) (h3 : DigitStr d3) (h4 : DigitStr d4)
    (ht : txt ≠ []) (hlt : '<' ∉ txt) :
    contTitle ("title=".data ++ [squote] ++ "bbox ".data ++ d1 ++ [' '] ++ d2 ++ [' '] ++ d3
        ++ [' '] ++ d4 ++ [squote] ++ ['>'] ++ txt ++ "</span>".data ++ rest)
      = some (⟨d1, d2, d3, d4, txt⟩, rest) := by
  simp only [contTitle, List.append_assoc, List.cons_append, List.singleton_append,
    List.nil_append, Option.bind_eq_bind, Option.some_bind,
    stripCI_title, takeQuote_squote, stripCI_bbox,
    takeDigits_sp _ h1, stripCI_space, takeDigits_sp _ h2, takeDigits_sp _ h3,
    takeDigits_q _ h4, skipToGt_gt, takeNonLt_exact _ ht hlt, stripCI_endspan]

/-! ### The first greedy piece, `greedyTitle` -/

theorem greedyTitle_cons (c : Char) (s : PyStr) :
    greedyTitle (c :: s) = if c = '>' then contTitle (c :: s)
      else match greedyTitle s with
        | some res => some res
        | none => contTitle (c :: s) := rfl

theorem greedyTitle_cons_inert {c : Char} (h : Inert c) (s : PyStr) :
    greedyTitle (c :: s) = greedyTitle s := by
  rw [greedyTitle_cons, if_neg h.1]
  cases hgs : greedyTitle s with
  | some res => rfl
  | none => simp [contTitle_cons_inert h]

theorem greedyTitle_append_inert {l : PyStr} (h : ∀ c ∈ l, Inert c) (s : PyStr) :
    greedyTitle (l ++ s) = greedyTitle s := by
  induction l with
  | nil => rfl
  | cons c cs ih =>
    rw [List.cons_append, greedyTitle_cons_inert (h c (by simp))]
    exact ih (fun x hx => h x (by simp [hx]))

theorem greedyTitle_gt_none (s : PyStr) : greedyTitle ('>' :: s) = none := by
  rw [greedyTitle_cons, if_pos rfl]
  exact contTitle_cons_none (by decide) _

theorem greedyTitle_step_t {rest : PyStr} (h : greedyTitle rest = none) :
    greedyTitle ('t' :: rest) = contTitle ('t' :: rest) := by
  rw [greedyTitle_cons, if_neg (by decide), h]

/-- The backtracking of the first `[^>]*` over the canonical attribute tail:
the run up to the closing `>` of the tag is one space, the `title=` literal
and inert material `mid`; the deepest surviving attempt of `contTitle` is
the one at the `title=` literal. -/
theorem greedyTitle_title {mid : PyStr} (X : PyStr) (hmid : ∀ c ∈ mid, Inert c) :
    greedyTitle (' ' :: 't' :: 'i' :: 't' :: 'l' :: 'e' :: '=' :: (mid ++ '>' :: X))
      = contTitle ('t' :: 'i' :: 't' :: 'l' :: 'e' :: '=' :: (mid ++ '>' :: X)) := by
  have h0 : greedyTitle ('l' :: 'e' :: '=' :: (mid ++ '>' :: X)) = none := by
    rw [greedyTitle_cons_inert (by decide), greedyTitle_cons_inert (by decide),
      greedyTitle_cons_inert (by decide), greedyTitle_append_inert hmid,
      greedyTitle_gt_none]
  have h1 : greedyTitle ('t' :: 'l' :: 'e' :: '=' :: (mid ++ '>' :: X)) = none := by
    rw [greedyTitle_step_t h0, contTitle_tl_none]
  have h2 : greedyTitle ('i' :: 't' :: 'l' :: 'e' :: '=' :: (mid ++ '>' :: X)) = none := by
    rw [greedyTitle_cons_inert (by decide), h1]
  rw [greedyTitle_cons_inert (by decide), greedyTitle_step_t h2]

theorem greedyTitle_title_app {mid : PyStr} (X : PyStr) (hmid : ∀ c ∈ mid, Inert c) :
    greedyTitle ([' '] ++ ("title=".data ++ (mid ++ (['>'] ++ X))))
      = contTitle ("title=".data ++ (mid ++ (['>'] ++ X))) :=
  greedyTitle_title X hmid

/-- The middle of a canonical attribute tail: quote, the `bbox ` literal,
the four digit fields with their separating spaces, and the closing
quote. -/
theorem mid_inert {d1 d2 d3 d4 : PyStr}
    (h1 : DigitStr d1) (h2 : DigitStr d2) (h3 : DigitStr d3) (h4 : DigitStr d4) :
    ∀ c ∈ [squote] ++ ("bbox ".data ++ (d1 ++ ([' '] ++ (d2 ++ ([' '] ++
      (d3 ++ ([' '] ++ (d4 ++ [squote])))))))), Inert c := by
  intro c hc
  simp only [List.mem_append, List.mem_cons, List.mem_singleton,
    List.not_mem_nil, or_false] at hc
  rcases hc with hc | hc | hc | hc | hc | hc | hc | hc | hc | hc
  · subst hc; decide
  · rcases hc with hc | hc | hc | hc | hc <;> subst hc <;> decide
  · exact inert_of_isDig (h1.2 c hc)
  · subst hc; decide
  · exact inert_of_isDig (h2.2 c hc)
  · subst hc; decide
  · exact inert_of_isDig (h3.2 c hc)
  · subst hc; decide
  · exact inert_of_isDig (h4.2 c hc)
  · subst hc; decide

theorem contTitle_render_app {d1 d2 d3 d4 txt : PyStr} (rest : PyStr)
    (h1 : DigitStr d1) (h2 : DigitStr d2) (h3 : DigitStr d3) (h4 : DigitStr d4)
    (ht : txt ≠ []) (hlt : '<' ∉ txt) :
    contTitle ("title=".data ++ (([squote] ++ ("bbox ".data ++ (d1 ++ ([' '] ++ (d2 ++ ([' '] ++
        (d3 ++ ([' '] ++ (d4 ++ [squote]))))))))) ++ (['>'] ++ (txt ++ ("</span>".data ++ rest)))))
      = some (⟨d1, d2, d3, d4, txt⟩, rest) := by
  rw [(by simp [List.append_assoc] :
    "title=".data ++ (([squote] ++ ("bbox ".data ++ (d1 ++ ([' '] ++ (d2 ++ ([' '] ++
        (d3 ++ ([' '] ++ (d4 ++ [squote]))))))))) ++ (['>'] ++ (txt ++ ("</span>".data ++ rest))))
      = "title=".data ++ [squote] ++ "bbox ".data ++ d1 ++ [' '] ++ d2 ++ [' '] ++ d3
        ++ [' '] ++ d4 ++ [squote] ++ ['>'] ++ txt ++ "</span>".data ++ rest)]
  exact contTitle_render rest h1 h2 h3 h4 ht hlt

/-! ### One full pattern attempt, `matchAt` -/

theorem matchAt_render {sp : SpanSpec} (hwf : sp.wf) (rest : PyStr) :
    matchAt (sp.render ++ rest) = some (sp.raw, rest) := by
  obtain ⟨hcls, h1, h2, h3, h4, ht, hlt⟩ := hwf
  have e0 : sp.render ++ rest = "<span class=".data ++ ([squote] ++ (sp.cls ++ ([squote] ++
      ([' '] ++ ("title=".data ++ (([squote] ++ ("bbox ".data ++ (sp.d1 ++ ([' '] ++ (sp.d2 ++
        ([' '] ++ (sp.d3 ++ ([' '] ++ (sp.d4 ++ [squote]))))))))) ++
      (['>'] ++ (sp.txt ++ ("</span>".data ++ rest))))))))) := by
    unfold SpanSpec.render
    simp [List.append_assoc]
  unfold matchAt
  rw [e0, stripCI_self]
  simp only [Option.bind_eq_bind, Option.some_bind]
  rw [(by simp [takeQuote] : ∀ r : PyStr, takeQuote ([squote] ++ r) = some r)]
  simp only [Option.some_bind]
  rw [stripCI_of_map hcls]
  simp only [Option.some_bind]
  rw [(by simp [takeQuote] : ∀ r : PyStr, takeQuote ([squote] ++ r) = some r)]
  simp only [Option.some_bind]
  rw [greedyTitle_title_app _ (mid_inert h1 h2 h3 h4),
    contTitle_render_app rest h1 h2 h3 h4 ht hlt]
  rfl

theorem contTitle_len {s : PyStr} {m : RawMatch} {r : PyStr}
    (h : contTitle s = some (m, r)) : r.length ≤ s.length := by
  unfold contTitle at h
  simp only [Option.bind_eq_bind, Option.bind_eq_some] at h
  obtain ⟨s1, e1, h⟩ := h
  obtain ⟨s2, e2, h⟩ := h
  obtain ⟨s3, e3, h⟩ := h
  obtain ⟨⟨g1, s4⟩, e4, h⟩ := h
  obtain ⟨s5, e5, h⟩ := h
  obtain ⟨⟨g2, s6⟩, e6, h⟩ := h
  obtain ⟨s7, e7, h⟩ := h
  obtain ⟨⟨g3, s8⟩, e8, h⟩ := h
  obtain ⟨s9, e9, h⟩ := h
  obtain ⟨⟨g4, s10⟩, e10, h⟩ := h
  obtain ⟨s11, e11, h⟩ := h
  obtain ⟨s12, e12, h⟩ := h
  obtain ⟨⟨g5, s13⟩, e13, h⟩ := h
  obtain ⟨s14, e14, h⟩ := h
  rw [Option.some.injEq, Prod.mk.injEq] at h
  obtain ⟨-, hr⟩ := h
  subst hr
  have l1 := stripCI_len e1
  have l2 := takeQuote_len e2
  have l3 := stripCI_len e3
  have l4 := takeDigits_len e4
  have l5 := stripCI_len e5
  have l6 := takeDigits_len e6
  have l7 := stripCI_len e7
  have l8 := takeDigits_len e8
  have l9 := stripCI_len e9
  have l10 := takeDigits_len e10
  have l11 := takeQuote_len e11
  have l12 := skipToGt_len e12
  have l13 := takeNonLt_len e13
  have l14 := stripCI_len e14
  dsimp only at *
  omega

theorem contTitle_groups {s : PyStr} {m : RawMatch} {r : PyStr}
    (h : contTitle s = some (m, r)) : GoodGroups m := by
  unfold contTitle at h
  simp only [Option.bind_eq_bind, Option.bind_eq_some] at h
  obtain ⟨s1, e1, h⟩ := h
  obtain ⟨s2, e2, h⟩ := h
  obtain ⟨s3, e3, h⟩ := h
  obtain ⟨⟨g1, s4⟩, e4, h⟩ := h
  obtain ⟨s5, e5, h⟩ := h
  obtain ⟨⟨g2, s6⟩, e6, h⟩ := h
  obtain ⟨s7, e7, h⟩ := h
  obtain ⟨⟨g3, s8⟩, e8, h⟩ := h
  obtain ⟨s9, e9, h⟩ := h
  obtain ⟨⟨g4, s10⟩, e10, h⟩ := h
  obtain ⟨s11, e11, h⟩ := h
  obtain ⟨s12, e12, h⟩ := h
  obtain ⟨⟨g5, s13⟩, e13, h⟩ := h
  obtain ⟨s14, e14, h⟩ := h
  rw [Option.some.injEq, Prod.mk.injEq] at h
  obtain ⟨hm, -⟩ := h
  subst hm
  exact ⟨takeDigits_digits e4, takeDigits_digits e6, takeDigits_digits e8,
    takeDigits_digits e10⟩

theorem greedyTitle_len : ∀ {s : PyStr} {m : RawMatch} {r : PyStr},
    greedyTitle s = some (m, r) → r.length ≤ s.length := by
  intro s
  induction s with
  | nil =>
    intro m r h
    rw [show greedyTitle [] = contTitle [] from rfl, contTitle_nil] at h
    cases h
  | cons c cs ih =>
    intro m r h
    rw [greedyTitle_cons] at h
    split at h
    · exact contTitle_len h
    · cases hgs : greedyTitle cs with
      | some res =>
        rw [hgs] at h
        obtain ⟨m', r'⟩ := res
        rw [Option.some.injEq] at h
        rw [Prod.mk.injEq] at h
        obtain ⟨-, hr⟩ := h
        subst hr
        exact Nat.le_trans (ih hgs) (by simp)
      | none =>
        rw [hgs] at h
        exact contTitle_len h

theorem greedyTitle_groups : ∀ {s : PyStr} {m : RawMatch} {r : PyStr},
    greedyTitle s = some (m, r) → GoodGroups m := by
  intro s
  induction s with
  | nil =>
    intro m r h
    rw [show greedyTitle [] = contTitle [] from rfl, contTitle_nil] at h
    cases h
  | cons c cs ih =>
    intro m r h
    rw [greedyTitle_cons] at h
    split at h
    · exact contTitle_groups h
    · cases hgs : greedyTitle cs with
      | some res =>
        rw [hgs] at h
        obtain ⟨m', r'⟩ := res
        rw [Option.some.injEq, Prod.mk.injEq] at h
        obtain ⟨hm, -⟩ := h
        subst hm
        exact ih hgs
      | none =>
        rw [hgs] at h
        exact contTitle_groups h

theorem matchAt_len {s : PyStr} {m : RawMatch} {r : PyStr}
    (h : matchAt s = some (m, r)) : r.length < s.length := by
  unfold matchAt at h
  simp only [Option.bind_eq_bind, Option.bind_eq_some] at h
  obtain ⟨s1, e1, h⟩ := h
  obtain ⟨s2, e2, h⟩ := h
  obtain ⟨s3, e3, h⟩ := h
  obtain ⟨s4, e4, h⟩ := h
  have l1 := stripCI_len_lt (by decide) e1
  have l2 := takeQuote_len e2
  have l3 := stripCI_len e3
  have l4 := takeQuote_len e4
  have l5 := greedyTitle_len h
  omega

theorem matchAt_groups {s : PyStr} {m : RawMatch} {r : PyStr}
    (h : matchAt s = some (m, r)) : GoodGroups m := by
  unfold matchAt at h
  simp only [Option.bind_eq_bind, Option.bind_eq_some] at h
  obtain ⟨s1, e1, h⟩ := h
  obtain ⟨s2, e2, h⟩ := h
  obtain ⟨s3, e3, h⟩ := h
  obtain ⟨s4, e4, h⟩ := h
  exact greedyTitle_groups h

theorem matchAt_nil : matchAt [] = none := rfl

theorem matchAt_cons_none {c : Char} (h : c ≠ '<') (s : PyStr) :
    matchAt (c :: s) = none := by
  have h1 : stripCI "<span class=".data (c :: s) = none := by
    show stripCI ('<' :: 's' :: 'p' :: 'a' :: 'n' :: ' ' :: 'c' :: 'l' :: 'a' :: 's' :: 's'
      :: '=' :: []) (c :: s) = none
    simp [stripCI, chCI_lt_false h]
  simp [matchAt, h1]

theorem matchAt_endspan_none (s : PyStr) : matchAt ('<' :: '/' :: s) = none := by
  have h1 : stripCI "<span class=".data ('<' :: '/' :: s) = none := by
    show stripCI ('<' :: 's' :: 'p' :: 'a' :: 'n' :: ' ' :: 'c' :: 'l' :: 'a' :: 's' :: 's'
      :: '=' :: []) ('<' :: '/' :: s) = none
    have c1 : chCI '<' '<' = true := by decide
    have c2 : chCI 's' '/' = false := by decide
    simp [stripCI, c1, c2]
  simp [matchAt, h1]

/-! ### The scan loop -/

theorem scanAux_nil : ∀ f : Nat, scanAux f [] = [] := by
  intro f
  cases f <;> rfl

theorem scanAux_succ (f : Nat) (c : Char) (cs : PyStr) :
    scanAux (f + 1) (c :: cs) = match matchAt (c :: cs) with
      | some (m, r) => m :: scanAux f r
      | none => scanAux f cs := rfl

theorem scanAux_congr : ∀ (f1 : Nat) (f2 : Nat) (s : PyStr), s.length ≤ f1 → s.length ≤ f2 →
    scanAux f1 s = scanAux f2 s := by
  intro f1
  induction f1 with
  | zero =>
    intro f2 s h1 h2
    have hs : s = [] := List.length_eq_zero.mp (Nat.le_zero.mp h1)
    subst hs
    rw [scanAux_nil, scanAux_nil]
  | succ f ih =>
    intro f2 s h1 h2
    match s with
    | [] => rw [scanAux_nil, scanAux_nil]
    | c :: cs =>
      match f2, h2 with
      | f2 + 1, h2 =>
        rw [scanAux_succ, scanAux_succ]
        cases hm : matchAt (c :: cs) with
        | some res =>
          obtain ⟨m, r⟩ := res
          have hr := matchAt_len hm
          simp only [List.length_cons] at h1 h2 hr
          dsimp only
          rw [ih f2 r (by omega) (by omega)]
        | none =>
          simp only [List.length_cons] at h1 h2
          dsimp only
          rw [ih f2 cs (by omega) (by omega)]

theorem scanMatches_nil : scanMatches [] = [] := rfl

theorem scanMatches_match {s : PyStr} {m : RawMatch} {r : PyStr}
    (h : matchAt s = some (m, r)) : scanMatches s = m :: scanMatches r := by
  match s with
  | [] => rw [matchAt_nil] at h; cases h
  | c :: cs =>
    have hr := matchAt_len h
    simp only [List.length_cons] at hr
    unfold scanMatches
    simp only [List.length_cons]
    rw [scanAux_succ, h]
    dsimp only
    rw [scanAux_congr cs.length r.length r (by omega) (by omega)]

theorem scanMatches_skip {c : Char} {cs : PyStr} (h : matchAt (c :: cs) = none) :
    scanMatches (c :: cs) = scanMatches cs := by
  unfold scanMatches
  simp only [List.length_cons]
  rw [scanAux_succ, h]

theorem scan_append_sep {l : PyStr} (hl : SepOk l) (s : PyStr) :
    scanMatches (l ++ s) = scanMatches s := by
  induction l with
  | nil => rfl
  | cons c cs ih =>
    rw [List.cons_append, scanMatches_skip (matchAt_cons_none (hl c (by simp)) _)]
    exact ih (fun x hx => hl x (by simp [hx]))

theorem scan_sep_nil {l : PyStr} (hl : SepOk l) : scanMatches l = [] := by
  have := scan_append_sep hl []
  rwa [List.append_nil] at this

theorem scan_render {sp : SpanSpec} (hwf : sp.wf) (t : PyStr) :
    scanMatches (sp.render ++ t) = sp.raw :: scanMatches t :=
  scanMatches_match (matchAt_render hwf t)

theorem scan_docOf : ∀ (ps : List (PyStr × SpanSpec)) (final : PyStr),
    (∀ p ∈ ps, SepOk p.1 ∧ p.2.wf) → SepOk final →
    scanMatches (docOf ps final) = ps.map (fun p => p.2.raw) := by
  intro ps
  induction ps with
  | nil =>
    intro final _ hf
    exact scan_sep_nil hf
  | cons p rest ih =>
    intro final h hf
    obtain ⟨sep, sp⟩ := p
    have hp := h (sep, sp) (by simp)
    show scanMatches ((sep ++ sp.render) ++ docOf rest final) = _
    rw [List.append_assoc, scan_append_sep hp.1, scan_render hp.2,
      ih final (fun x hx => h x (by simp [hx])) hf]
    rfl

theorem scanAux_groups : ∀ (f : Nat) (s : PyStr) (m : RawMatch),
    m ∈ scanAux f s → GoodGroups m := by
  intro f
  induction f with
  | zero =>
    intro s m h
    simp [scanAux] at h
  | succ f ih =>
    intro s m h
    match s with
    | [] => rw [scanAux_nil] at h; cases h
    | c :: cs =>
      rw [scanAux_succ] at h
      cases hm : matchAt (c :: cs) with
      | some res =>
        obtain ⟨m', r⟩ := res
        rw [hm] at h
        rcases List.mem_cons.mp h with h | h
        · subst h; exact matchAt_groups hm
        · exact ih r m h
      | none =>
        rw [hm] at h
        exact ih cs m h

theorem scanMatches_groups {s : PyStr} {m : RawMatch} (h : m ∈ scanMatches s) :
    GoodGroups m :=
  scanAux_groups s.length s m h

/-! ### Failure of the pattern on a malformed bounding box -/

theorem contTitle_as_chain (R : PyStr) :
    contTitle ("title=".data ++ (squote :: ("bbox ".data ++ R))) = bboxChain R := rfl

theorem chCI_sp_false {c : Char} (h : c ≠ ' ') : chCI ' ' c = false := by
  have e1 : Char.toNat ' ' = 32 := by decide
  have n1 : c.toNat ≠ 32 := e1 ▸ toNat_ne_of_ne h
  unfold chCI lowerN
  simp only [e1]
  split <;> split <;> simp <;> omega

theorem stripCI_sp_none {c : Char} (h : c ≠ ' ') (s : PyStr) :
    stripCI " ".data (c :: s) = none := by
  show stripCI (' ' :: []) (c :: s) = none
  simp [stripCI, chCI_sp_false h]

theorem stripCI_sp_squote (s : PyStr) : stripCI " ".data (squote :: s) = none :=
  stripCI_sp_none (by decide) s

theorem takeQuote_junk {c : Char} (h1 : c ≠ squote) (h2 : c ≠ dquote) (s : PyStr) :
    takeQuote (c :: s) = none := by
  simp [takeQuote, h1, h2]

theorem takeDigits_none_head {b : Char} (hb : isDig b = false) (r : PyStr) :
    takeDigits (b :: r) = none := by
  simp [takeDigits, List.takeWhile, hb]

theorem comp_first_bad {comp : PyStr}
    (ha : ∀ c ∈ comp, isDig c = true ∨ JunkChar c)
    (hbad : ∃ c ∈ comp, isDig c = false) :
    ∃ a b β, comp = a ++ b :: β ∧ (∀ c ∈ a, isDig c = true) ∧ JunkChar b := by
  induction comp with
  | nil => simp at hbad
  | cons c cs ih =>
    by_cases hc : isDig c = true
    · have hbad' : ∃ x ∈ cs, isDig x = false := by
        obtain ⟨x, hx, hxd⟩ := hbad
        rcases List.mem_cons.mp hx with h | h
        · subst h; rw [hc] at hxd; cases hxd
        · exact ⟨x, h, hxd⟩
      obtain ⟨a, b, β, he, haD, hbJ⟩ := ih (fun x hx => ha x (by simp [hx])) hbad'
      refine ⟨c :: a, b, β, by simp [he], ?_, hbJ⟩
      intro x hx
      rcases List.mem_cons.mp hx with h | h
      · subst h; exact hc
      · exact haD x h
    · have hcJ : JunkChar c := by
        rcases ha c (by simp) with h | h
        · exact absurd h hc
        · exact h
      exact ⟨[], c, cs, rfl, by simp, hcJ⟩

theorem bad_field_space {α : Type} {comp : PyStr}
    (ha : ∀ c ∈ comp, isDig c = true ∨ JunkChar c)
    (hbad : ∃ c ∈ comp, isDig c = false) (R : PyStr)
    (k : PyStr × PyStr → PyStr → Option α) :
    Option.bind (takeDigits (comp ++ R))
      (fun p => Option.bind (stripCI " ".data p.2) (k p)) = none := by
  obtain ⟨a, b, β, hc, haD, hbJ⟩ := comp_first_bad ha hbad
  subst hc
  rw [List.append_assoc, List.cons_append]
  by_cases haE : a = []
  · subst haE
    rw [List.nil_append, takeDigits_none_head hbJ.1]
    rfl
  · rw [takeDigits_exact b (β ++ R) haE haD hbJ.1, Option.some_bind]
    dsimp only
    rw [stripCI_sp_none hbJ.2.2.2.2.2.1]
    rfl

theorem bad_field_quote {α : Type} {comp : PyStr}
    (ha : ∀ c ∈ comp, isDig c = true ∨ JunkChar c)
    (hbad : ∃ c ∈ comp, isDig c = false) (R : PyStr)
    (k : PyStr × PyStr → PyStr → Option α) :
    Option.bind (takeDigits (comp ++ R))
      (fun p => Option.bind (takeQuote p.2) (k p)) = none := by
  obtain ⟨a, b, β, hc, haD, hbJ⟩ := comp_first_bad ha hbad
  subst hc
  rw [List.append_assoc, List.cons_append]
  by_cases haE : a = []
  · subst haE
    rw [List.nil_append, takeDigits_none_head hbJ.1]
    rfl
  · rw [takeDigits_exact b (β ++ R) haE haD hbJ.1, Option.some_bind]
    dsimp only
    rw [takeQuote_junk hbJ.2.2.2.1 hbJ.2.2.2.2.1]
    rfl

theorem stripCI_space_data (r : PyStr) : stripCI " ".data (' ' :: r) = some r :=
  stripCI_self " ".data r

theorem bboxChain_malformed {comps : List PyStr} (hm : MalformedBbox comps) (W : PyStr) :
    bboxChain (joinSpace comps ++ squote :: W) = none := by
  obtain ⟨hne, halpha, hshape⟩ := hm
  unfold bboxChain
  simp only [Option.bind_eq_bind]
  rcases comps with _ | ⟨c1, _ | ⟨c2, _ | ⟨c3, _ | ⟨c4, rest⟩⟩⟩⟩
  · exact absurd rfl hne
  · have h1 := halpha c1 (by simp)
    rw [show joinSpace [c1] = c1 from rfl]
    by_cases hd1 : ∀ c ∈ c1, isDig c = true
    · rw [takeDigits_exact squote W h1.1 hd1 not_isDig_squote, Option.some_bind]
      dsimp only
      rw [stripCI_sp_squote]
      rfl
    · push_neg at hd1
      obtain ⟨c, hc, hcd⟩ := hd1
      exact bad_field_space h1.2 ⟨c, hc, by simpa using hcd⟩ _ _
  · have h1 := halpha c1 (by simp)
    have h2 := halpha c2 (by simp)
    rw [show joinSpace [c1, c2] = c1 ++ ' ' :: c2 from rfl,
      (by simp [List.append_assoc] :
        (c1 ++ ' ' :: c2) ++ squote :: W = c1 ++ ' ' :: (c2 ++ squote :: W))]
    by_cases hd1 : ∀ c ∈ c1, isDig c = true
    · rw [takeDigits_sp _ ⟨h1.1, hd1⟩, Option.some_bind]
      dsimp only
      rw [stripCI_space_data, Option.some_bind]
      by_cases hd2 : ∀ c ∈ c2, isDig c = true
      · rw [takeDigits_exact squote W h2.1 hd2 not_isDig_squote, Option.some_bind]
        dsimp only
        rw [stripCI_sp_squote]
        rfl
      · push_neg at hd2
        obtain ⟨c, hc, hcd⟩ := hd2
        exact bad_field_space h2.2 ⟨c, hc, by simpa using hcd⟩ _ _
    · push_neg at hd1
      obtain ⟨c, hc, hcd⟩ := hd1
      exact bad_field_space h1.2 ⟨c, hc, by simpa using hcd⟩ _ _
  · have h1 := halpha c1 (by simp)
    have h2 := halpha c2 (by simp)
    have h3 := halpha c3 (by simp)
    rw [show joinSpace [c1, c2, c3] = c1 ++ ' ' :: (c2 ++ ' ' :: c3) from rfl,
      (by simp [List.append_assoc] :
        (c1 ++ ' ' :: (c2 ++ ' ' :: c3)) ++ squote :: W
          = c1 ++ ' ' :: (c2 ++ ' ' :: (c3 ++ squote :: W)))]
    by_cases hd1 : ∀ c ∈ c1, isDig c = true
    · rw [takeDigits_sp _ ⟨h1.1, hd1⟩, Option.some_bind]
      dsimp only
      rw [stripCI_space_data, Option.some_bind]
      by_cases hd2 : ∀ c ∈ c2, isDig c = true
      · rw [takeDigits_sp _ ⟨h2.1, hd2⟩, Option.some_bind]
        dsimp only
        rw [stripCI_space_data, Option.some_bind]
        by_cases hd3 : ∀ c ∈ c3, isDig c = true
        · rw [takeDigits_exact squote W h3.1 hd3 not_isDig_squote, Option.some_bind]
          dsimp only
          rw [stripCI_sp_squote]
          rfl
        · push_neg at hd3
          obtain ⟨c, hc, hcd⟩ := hd3
          exact bad_field_space h3.2 ⟨c, hc, by simpa using hcd⟩ _ _
      · push_neg at hd2
        obtain ⟨c, hc, hcd⟩ := hd2
        exact bad_field_space h2.2 ⟨c, hc, by simpa using hcd⟩ _ _
    · push_neg at hd1
      obtain ⟨c, hc, hcd⟩ := hd1
      exact bad_field_space h1.2 ⟨c, hc, by simpa using hcd⟩ _ _
  · rcases hshape with h | ⟨hlen, hex⟩
    · exfalso
      simp only [List.length_cons] at h
      omega
    · have hrest : rest = [] := by
        simp only [List.length_cons] at hlen
        have : rest.length = 0 := by omega
        exact List.length_eq_zero.mp this
      subst hrest
      have h1 := halpha c1 (by simp)
      have h2 := halpha c2 (by simp)
      have h3 := halpha c3 (by simp)
      have h4 := halpha c4 (by simp)
      rw [show joinSpace [c1, c2, c3, c4]
          = c1 ++ ' ' :: (c2 ++ ' ' :: (c3 ++ ' ' :: c4)) from rfl,
        (by simp [List.append_assoc] :
          (c1 ++ ' ' :: (c2 ++ ' ' :: (c3 ++ ' ' :: c4))) ++ squote :: W
            = c1 ++ ' ' :: (c2 ++ ' ' :: (c3 ++ ' ' :: (c4 ++ squote :: W))))]
      by_cases hd1 : ∀ c ∈ c1, isDig c = true
      · rw [takeDigits_sp _ ⟨h1.1, hd1⟩, Option.some_bind]
        dsimp only
        rw [stripCI_space_data, Option.some_bind]
        by_cases hd2 : ∀ c ∈ c2, isDig c = true
        · rw [takeDigits_sp _ ⟨h2.1, hd2⟩, Option.some_bind]
          dsimp only
          rw [stripCI_space_data, Option.some_bind]
          by_cases hd3 : ∀ c ∈ c3, isDig c = true
          · rw [takeDigits_sp _ ⟨h3.1, hd3⟩, Option.some_bind]
            dsimp only
            rw [stripCI_space_data, Option.some_bind]
            by_cases hd4 : ∀ c ∈ c4, isDig c = true
            · exfalso
              obtain ⟨comp, hcm, c, hc, hcd⟩ := hex
              simp only [List.mem_cons, List.not_mem_nil, or_false] at hcm
              rcases hcm with h | h | h | h
              · subst h; rw [hd1 c hc] at hcd; cases hcd
              · subst h; rw [hd2 c hc] at hcd; cases hcd
              · subst h; rw [hd3 c hc] at hcd; cases hcd
              · subst h; rw [hd4 c hc] at hcd; cases hcd
            · push_neg at hd4
              obtain ⟨c, hc, hcd⟩ := hd4
              exact bad_field_quote h4.2 ⟨c, hc, by simpa using hcd⟩ _ _
          · push_neg at hd3
            obtain ⟨c, hc, hcd⟩ := hd3
            exact bad_field_space h3.2 ⟨c, hc, by simpa using hcd⟩ _ _
        · push_neg at hd2
          obtain ⟨c, hc, hcd⟩ := hd2
          exact bad_field_space h2.2 ⟨c, hc, by simpa using hcd⟩ _ _
      · push_neg at hd1
        obtain ⟨c, hc, hcd⟩ := hd1
        exact bad_field_space h1.2 ⟨c, hc, by simpa using hcd⟩ _ _

theorem junk_inert {c : Char} (h : JunkChar c) : Inert c :=
  ⟨h.2.2.1, h.2.2.2.2.2.2.1, h.2.2.2.2.2.2.2⟩

theorem mem_joinSpace {c : Char} : ∀ {ls : List PyStr},
    c ∈ joinSpace ls → c = ' ' ∨ ∃ l ∈ ls, c ∈ l := by
  intro ls
  induction ls with
  | nil => intro h; cases h
  | cons x xs ih =>
    cases xs with
    | nil =>
      intro h
      exact Or.inr ⟨x, by simp, h⟩
    | cons y t =>
      intro h
      rw [show joinSpace (x :: y :: t) = x ++ ' ' :: joinSpace (y :: t) from rfl] at h
      rcases List.mem_append.mp h with h | h
      · exact Or.inr ⟨x, by simp, h⟩
      · rcases List.mem_cons.mp h with h | h
        · exact Or.inl h
        · rcases ih h with h | ⟨l, hl, hcl⟩
          · exact Or.inl h
          · exact Or.inr ⟨l, by simp [hl], hcl⟩

theorem midbad_inert {comps : List PyStr}
    (halpha : ∀ comp ∈ comps, comp ≠ [] ∧ ∀ c ∈ comp, isDig c = true ∨ JunkChar c) :
    ∀ c ∈ [squote] ++ ("bbox ".data ++ (joinSpace comps ++ [squote])), Inert c := by
  intro c hc
  simp only [List.mem_append, List.mem_cons, List.mem_singleton,
    List.not_mem_nil, or_false] at hc
  rcases hc with hc | hc | hc | hc
  · subst hc; decide
  · rcases hc with hc | hc | hc | hc | hc <;> subst hc <;> decide
  · rcases mem_joinSpace hc with hc | ⟨l, hl, hcl⟩
    · subst hc; decide
    · rcases (halpha l hl).2 c hcl with h | h
      · exact inert_of_isDig h
      · exact junk_inert h
  · subst hc; decide

theorem matchAt_renderBad_none {cls : PyStr} {comps : List PyStr} (txt : PyStr)
    (hcls : cls.map lowerN = "ocrx_word".data.map lowerN)
    (halpha : ∀ comp ∈ comps, comp ≠ [] ∧ ∀ c ∈ comp, isDig c = true ∨ JunkChar c)
    (hm : MalformedBbox comps) (rest : PyStr) :
    matchAt (renderBad cls comps txt ++ rest) = none := by
  have e0 : renderBad cls comps txt ++ rest = "<span class=".data ++ ([squote] ++ (cls ++
      ([squote] ++ ([' '] ++ ("title=".data ++ (([squote] ++ ("bbox ".data ++
        (joinSpace comps ++ [squote]))) ++ (['>'] ++ (txt ++ ("</span>".data ++ rest))))))))) := by
    unfold renderBad
    simp [List.append_assoc]
  unfold matchAt
  rw [e0, stripCI_self]
  simp only [Option.bind_eq_bind, Option.some_bind]
  rw [(by simp [takeQuote] : ∀ r : PyStr, takeQuote ([squote] ++ r) = some r)]
  simp only [Option.some_bind]
  rw [stripCI_of_map hcls]
  simp only [Option.some_bind]
  rw [(by simp [takeQuote] : ∀ r : PyStr, takeQuote ([squote] ++ r) = some r)]
  simp only [Option.some_bind]
  rw [greedyTitle_title_app _ (midbad_inert halpha)]
  rw [(by simp [List.append_assoc] :
    "title=".data ++ (([squote] ++ ("bbox ".data ++ (joinSpace comps ++ [squote]))) ++
        (['>'] ++ (txt ++ ("</span>".data ++ rest))))
      = "title=".data ++ (squote :: ("bbox ".data ++
        (joinSpace comps ++ squote :: '>' :: (txt ++ ("</span>".data ++ rest))))))]
  rw [contTitle_as_chain]
  exact bboxChain_malformed ⟨hm.1, halpha, hm.2.2⟩ _

theorem sepOk_of_cls {cls : PyStr} (h : cls.map lowerN = "ocrx_word".data.map lowerN) :
    SepOk cls := by
  intro c hc he
  subst he
  have hmem : lowerN '<' ∈ cls.map lowerN := List.mem_map_of_mem _ hc
  rw [h] at hmem
  revert hmem
  decide

theorem ne_lt_of_isDig {c : Char} (h : isDig c = true) : c ≠ '<' := by
  intro he
  subst he
  cases h

theorem scan_renderBad {cls : PyStr} {comps : List PyStr} {txt : PyStr}
    (hcls : cls.map lowerN = "ocrx_word".data.map lowerN)
    (halpha : ∀ comp ∈ comps, comp ≠ [] ∧ ∀ c ∈ comp, isDig c = true ∨ JunkChar c)
    (hm : MalformedBbox comps) (htxt : '<' ∉ txt) (t : PyStr) :
    scanMatches (renderBad cls comps txt ++ t) = scanMatches t := by
  have h0 := matchAt_renderBad_none txt hcls halpha hm t
  have e : renderBad cls comps txt ++ t = '<' :: (("span class=".data ++ ([squote] ++ (cls ++
      ([squote] ++ ([' '] ++ ("title=".data ++ ([squote] ++ ("bbox ".data ++
        (joinSpace comps ++ ([squote] ++ (['>'] ++ txt))))))))))) ++
      ('<' :: ("/span>".data ++ t))) := by
    unfold renderBad
    simp [List.append_assoc]
  have hseg : SepOk ("span class=".data ++ ([squote] ++ (cls ++
      ([squote] ++ ([' '] ++ ("title=".data ++ ([squote] ++ ("bbox ".data ++
        (joinSpace comps ++ ([squote] ++ (['>'] ++ txt))))))))))) := by
    intro c hc
    simp only [List.mem_append, List.mem_cons, List.mem_singleton,
      List.not_mem_nil, or_false] at hc
    rcases hc with hc | hc | hc | hc | hc | hc | hc | hc | hc | hc | hc
    · rcases hc with hc | hc | hc | hc | hc | hc | hc | hc | hc | hc | hc <;>
        subst hc <;> decide
    · subst hc; decide
    · exact sepOk_of_cls hcls c hc
    · subst hc; decide
    · subst hc; decide
    · rcases hc with hc | hc | hc | hc | hc | hc <;> subst hc <;> decide
    · subst hc; decide
    · rcases hc with hc | hc | hc | hc | hc <;> subst hc <;> decide
    · rcases mem_joinSpace hc with hc | ⟨l, hl, hcl⟩
      · subst hc; decide
      · rcases (halpha l hl).2 c hcl with h | h
        · exact ne_lt_of_isDig h
        · exact h.2.1
    · subst hc; decide
    · rcases hc with hc | hc
      · subst hc; decide
      · exact fun he => htxt (he ▸ hc)
  rw [e] at h0
  rw [e, scanMatches_skip h0, scan_append_sep hseg]
  show scanMatches ('<' :: '/' :: ("span>".data ++ t)) = scanMatches t
  rw [scanMatches_skip (matchAt_endspan_none _)]
  exact @scan_append_sep ("span>".data) (by decide) t

/-! ### From raw matches to words -/

theorem noSpace_of_isDig {c : Char} (h : isDig c = true) : isPySpace c = false := by
  unfold isDig at h
  unfold isPySpace
  simp only [Bool.and_eq_true, decide_eq_true_eq] at h
  simp only [Bool.or_eq_false_iff, decide_eq_false_iff_not]
  omega

theorem pyStrip_of_noSpace {l : PyStr} (h : ∀ c ∈ l, isPySpace c = false) :
    pyStrip l = l := by
  have hdrop : ∀ (m : PyStr), (∀ c ∈ m, isPySpace c = false) → m.dropWhile isPySpace = m := by
    intro m hm
    cases m with
    | nil => rfl
    | cons c cs => simp [List.dropWhile, hm c (by simp)]
  unfold pyStrip
  rw [hdrop l h, hdrop l.reverse (fun c hc => h c (List.mem_reverse.mp hc)),
    List.reverse_reverse]

theorem pyInt_digits {ds : PyStr} (h : DigitStr ds) : pyInt ds = .ok (natOfDigits ds : Int) := by
  obtain ⟨hne, hdig⟩ := h
  have hstrip : pyStrip ds = ds :=
    pyStrip_of_noSpace (fun c hc => noSpace_of_isDig (hdig c hc))
  match ds, hne with
  | d :: t, _ =>
    have hd := hdig d (by simp)
    unfold pyInt
    rw [hstrip]
    rw [if_neg ?hm, if_neg ?hp, if_pos ?hc]
    case hm =>
      intro hcon
      simp only [List.take_succ_cons, List.take_zero, List.cons.injEq, and_true] at hcon
      subst hcon
      cases hd
    case hp =>
      intro hcon
      simp only [List.take_succ_cons, List.take_zero, List.cons.injEq, and_true] at hcon
      subst hcon
      cases hd
    case hc =>
      refine ⟨by simp, ?_⟩
      simpa [List.all_eq_true] using hdig

theorem mkWordE_ok {m : RawMatch} (h : GoodGroups m) :
    mkWordE m = Except.ok (Word.mk (pyStrip m.text)
      (natOfDigits m.x1 : Int) (natOfDigits m.y1 : Int)
      (natOfDigits m.x2 : Int) (natOfDigits m.y2 : Int)) := by
  unfold mkWordE
  rw [pyInt_digits h.1, pyInt_digits h.2.1, pyInt_digits h.2.2.1, pyInt_digits h.2.2.2]
  rfl

theorem filterMap_all_some {α β : Type} {f : α → Option β} {g : α → β} :
    ∀ {l : List α}, (∀ x ∈ l, f x = some (g x)) → l.filterMap f = l.map g := by
  intro l
  induction l with
  | nil => intro _; rfl
  | cons x xs ih =>
    intro h
    rw [List.filterMap_cons, h x (by simp), List.map_cons, ih (fun y hy => h y (by simp [hy]))]

theorem raw_groups_of_wf {sp : SpanSpec} (hwf : sp.wf) : GoodGroups sp.raw :=
  ⟨hwf.2.1, hwf.2.2.1, hwf.2.2.2.1, hwf.2.2.2.2.1⟩

theorem parse_eq_body (s : PyStr) :
    parse_hocr_words s = (scanMatches s).filterMap (fun m => (mkWordE m).toOption) := rfl

theorem parse_docOf (ps : List (PyStr × SpanSpec)) (final : PyStr)
    (h : ∀ p ∈ ps, SepOk p.1 ∧ p.2.wf) (hf : SepOk final) :
    parse_hocr_words (docOf ps final) = ps.map (fun p => p.2.word) := by
  rw [parse_eq_body, scan_docOf ps final h hf, List.filterMap_map]
  exact filterMap_all_some (fun p hp => by
    rw [Function.comp_apply, mkWordE_ok (raw_groups_of_wf (h p hp).2)]
    rfl)

theorem parse_single {sp : SpanSpec} (hwf : sp.wf) :
    parse_hocr_words sp.render = [sp.word] := by
  have h := scan_render hwf []
  rw [List.append_nil, scanMatches_nil] at h
  rw [parse_eq_body, h, List.filterMap_cons, mkWordE_ok (raw_groups_of_wf hwf)]
  rfl

theorem scan_docOf_t : ∀ (ps : List (PyStr × SpanSpec)) (t : PyStr),
    (∀ p ∈ ps, SepOk p.1 ∧ p.2.wf) →
    scanMatches (docOf ps t) = ps.map (fun p => p.2.raw) ++ scanMatches t := by
  intro ps
  induction ps with
  | nil =>
    intro t _
    rfl
  | cons p rest ih =>
    intro t h
    obtain ⟨sep, sp⟩ := p
    have hp := h (sep, sp) (by simp)
    show scanMatches ((sep ++ sp.render) ++ docOf rest t) = _
    rw [List.append_assoc, scan_append_sep hp.1, scan_render hp.2,
      ih t (fun x hx => h x (by simp [hx]))]
    rfl

theorem filterMap_words_of_wf {ps : List (PyStr × SpanSpec)}
    (h : ∀ p ∈ ps, SepOk p.1 ∧ p.2.wf) :
    (ps.map (fun p => p.2.raw)).filterMap (fun m => (mkWordE m).toOption)
      = ps.map (fun p => p.2.word) := by
  rw [List.filterMap_map]
  exact filterMap_all_some (fun p hp => by
    rw [Function.comp_apply, mkWordE_ok (raw_groups_of_wf (h p hp).2)]
    rfl)

/-! ### Idempotence of `str.strip()` -/

theorem dropWhile_cons_eq_false {p : Char → Bool} : ∀ {l : PyStr} {c : Char} {cs : PyStr},
    l.dropWhile p = c :: cs → p c = false := by
  intro l
  induction l with
  | nil => intro c cs h; cases h
  | cons a as ih =>
    intro c cs h
    rw [List.dropWhile_cons] at h
    by_cases ha : p a = true
    · rw [if_pos ha] at h
      exact ih h
    · rw [if_neg ha] at h
      rw [List.cons.injEq] at h
      rw [h.1] at ha
      simpa using ha

theorem pyStrip_rev_eq (l : PyStr) :
    (pyStrip l).reverse = ((l.dropWhile isPySpace).reverse).dropWhile isPySpace := by
  unfold pyStrip
  rw [List.reverse_reverse]

theorem pyStrip_front (l : PyStr) :
    ∃ k, l.dropWhile isPySpace = pyStrip l ++ k := by
  obtain ⟨k, hk⟩ := List.dropWhile_suffix (l := (l.dropWhile isPySpace).reverse) isPySpace
  refine ⟨k.reverse, ?_⟩
  have h2 := congrArg List.reverse hk
  rw [List.reverse_append, List.reverse_reverse] at h2
  rw [← h2]
  unfold pyStrip
  rfl

theorem pyStrip_idem (l : PyStr) : pyStrip (pyStrip l) = pyStrip l := by
  cases hz : pyStrip l with
  | nil => rfl
  | cons c cs =>
    have hc : isPySpace c = false := by
      obtain ⟨k, hk⟩ := pyStrip_front l
      rw [hz, List.cons_append] at hk
      exact dropWhile_cons_eq_false hk
    unfold pyStrip
    have e1 : (c :: cs).dropWhile isPySpace = c :: cs := by
      rw [List.dropWhile_cons]
      simp [hc]
    rw [e1]
    cases hrev : (c :: cs).reverse with
    | nil => exact absurd hrev (by simp)
    | cons d ds =>
      have hd : isPySpace d = false := by
        have h2 := pyStrip_rev_eq l
        rw [hz, hrev] at h2
        exact dropWhile_cons_eq_false h2.symm
      rw [List.dropWhile_cons]
      simp only [hd, if_false, Bool.false_eq_true]
      rw [← hrev, List.reverse_reverse]

/-! ### The claims -/

/-- C1, counterexample: `revAttrSpan` is a word span that satisfies the
informal description of well-formedness — it has the class token
identifying an OCR word and a `title` attribute with a `bbox 1 2 3 4`
directive of four non-negative integers — but it lists the `title`
attribute before the `class` attribute, so the regex, which demands the
class attribute immediately after the tag name, yields no match: an input
containing one well-formed span for which parse returns zero Word records
instead of one. -/
theorem C1_counterexample :
    parse_hocr_words revAttrSpan = [] ∧ (parse_hocr_words revAttrSpan).length ≠ 1 := by
  decide

/-- C1 (amended): for every hOCR input built of N well-formed word spans
written in the canonical form the parser recognizes — class attribute
first, then a title attribute with the `bbox N N N N` directive, non-empty
markup-free text — with arbitrary tag-free text around them, parse returns
exactly N Word records, in the order the spans appear in the document. -/
theorem C1_parse_count_and_order (ps : List (PyStr × SpanSpec)) (final : PyStr)
    (h : ∀ p ∈ ps, SepOk p.1 ∧ p.2.wf) (hf : SepOk final) :
    parse_hocr_words (docOf ps final) = ps.map (fun p => p.2.word) ∧
    (parse_hocr_words (docOf ps final)).length = ps.length := by
  have hp := parse_docOf ps final h hf
  exact ⟨hp, by rw [hp, List.length_map]⟩

theorem C1_witness :
    parse_hocr_words (docOf [(['y'], exSpan), ([], exSpanUpper)] ['z'])
      = [exSpan.word, exSpanUpper.word] ∧
    (parse_hocr_words (docOf [(['y'], exSpan), ([], exSpanUpper)] ['z'])).length = 2 :=
  C1_parse_count_and_order [(['y'], exSpan), ([], exSpanUpper)] ['z']
    (by decide) (by decide)

/-- C2: when parsing finds no word, the conversion still succeeds with
`success = true`, `wordsExtracted = 0`, status 200, and the returned PDF is
the original input PDF unchanged (the handler echoes the base64 string). -/
theorem C2_zero_words_passthrough (req : ConvertRequest) (bs : List Nat)
    (h1 : req.hocr ≠ []) (h2 : req.originalPdf ≠ [])
    (hdec : pyB64Decode req.originalPdf = Except.ok bs)
    (hwords : parse_hocr_words req.hocr = []) :
    (convert_hocr_to_pdf req).1.success = true ∧
    (convert_hocr_to_pdf req).1.wordsExtracted = some 0 ∧
    (convert_hocr_to_pdf req).1.searchablePdf = some req.originalPdf ∧
    (convert_hocr_to_pdf req).2 = 200 := by
  unfold convert_hocr_to_pdf
  rw [if_neg h1, if_neg h2, hdec]
  simp [hwords]

theorem C2_witness :
    (convert_hocr_to_pdf reqNoWords).1.success = true ∧
    (convert_hocr_to_pdf reqNoWords).1.wordsExtracted = some 0 ∧
    (convert_hocr_to_pdf reqNoWords).1.searchablePdf = some reqNoWords.originalPdf ∧
    (convert_hocr_to_pdf reqNoWords).2 = 200 :=
  C2_zero_words_passthrough reqNoWords [65, 66, 67] (by decide) (by decide)
    (by rfl) (by rfl)

/-- C3: parse is total towards its caller.  The `try` block of
`parse_hocr_words` always returns `ok` — the only fallible operations are
the `int()` conversions, whose per-element `except` skips the element, and
they in fact never fail, because every captured group is a non-empty digit
string — and `parse_hocr_words` returns exactly the sequence of the block;
by definition the outer `except` maps any escaping error to the empty
sequence. -/
theorem C3_parse_never_fails (s : PyStr) :
    parse_hocr_words_body s = Except.ok (parse_hocr_words s) ∧
    ∀ m ∈ scanMatches s, ∃ w, mkWordE m = Except.ok w := by
  refine ⟨rfl, fun m hm => ?_⟩
  exact ⟨_, mkWordE_ok (scanMatches_groups hm)⟩

theorem C3_witness :
    parse_hocr_words_body exSpan.render = Except.ok (parse_hocr_words exSpan.render) ∧
    ∃ w, mkWordE exSpan.raw = Except.ok w :=
  ⟨(C3_parse_never_fails exSpan.render).1,
    (C3_parse_never_fails exSpan.render).2 exSpan.raw (by decide)⟩

/-- C5, counterexample: the span `degenerateSpan`, whose text content is a
single space and whose bbox is `50 20 10 5`, is parsed into a Word whose
text is empty (violating non-emptiness) and whose box has `x2 < x1` and
`y2 < y1` (violating the ordering invariant): the code validates neither. -/
theorem C5_counterexample :
    ∃ w ∈ parse_hocr_words degenerateSpan.render,
      w.text = [] ∧ w.x2 < w.x1 ∧ w.y2 < w.y1 := by
  decide

/-- C5 (amended): every Word produced by parse has text trimmed of
surrounding whitespace (though possibly empty) and four non-negative
coordinates; no order between `x1, x2` or `y1, y2` is guaranteed. -/
theorem C5_word_invariant (s : PyStr) (w : Word) (hw : w ∈ parse_hocr_words s) :
    pyStrip w.text = w.text ∧ 0 ≤ w.x1 ∧ 0 ≤ w.y1 ∧ 0 ≤ w.x2 ∧ 0 ≤ w.y2 := by
  rw [parse_eq_body] at hw
  obtain ⟨m, hm, hmw⟩ := List.mem_filterMap.mp hw
  rw [mkWordE_ok (scanMatches_groups hm)] at hmw
  simp only [Except.toOption, Option.some.injEq] at hmw
  subst hmw
  refine ⟨pyStrip_idem _, ?_, ?_, ?_, ?_⟩ <;> exact Int.natCast_nonneg _

theorem C5_witness :
    pyStrip (hiSpan.word.text) = hiSpan.word.text ∧ 0 ≤ hiSpan.word.x1 ∧
      0 ≤ hiSpan.word.y1 ∧ 0 ≤ hiSpan.word.x2 ∧ 0 ≤ hiSpan.word.y2 :=
  C5_word_invariant hiSpan.render hiSpan.word (by decide)

/-- C6: the synthesizer assigns a word to page `floor(y1 / 792)`; a word
with `y1 = 100` goes to page 0 and one with `y1 = 900` to page 1.  The
repository contains no synthesizer code, so the rule is modelled from the
spec (`pageIndex`, `PAGE_HEIGHT`). -/
theorem C6_page_assignment (w : Word) :
    pageIndex w = Int.fdiv w.y1 792 ∧
    (w.y1 = 100 → pageIndex w = 0) ∧ (w.y1 = 900 → pageIndex w = 1) := by
  refine ⟨rfl, fun h => ?_, fun h => ?_⟩ <;> simp [pageIndex, PAGE_HEIGHT, h]

theorem C6_witness :
    pageIndex (Word.mk [] 0 100 0 0) = 0 ∧ pageIndex (Word.mk [] 0 900 0 0) = 1 :=
  ⟨(C6_page_assignment (Word.mk [] 0 100 0 0)).2.1 rfl,
    (C6_page_assignment (Word.mk [] 0 900 0 0)).2.2 rfl⟩

/-- C7: matching of the class token is case-insensitive — any casing `cls`
of `ocrx_word` (that is, any string whose ASCII lower-casing equals that of
`ocrx_word`) produces the Word. -/
theorem C7_class_case_insensitive (cls d1 d2 d3 d4 txt : PyStr)
    (hcls : cls.map lowerN = "ocrx_word".data.map lowerN)
    (h1 : DigitStr d1) (h2 : DigitStr d2) (h3 : DigitStr d3) (h4 : DigitStr d4)
    (ht : txt ≠ []) (hlt : '<' ∉ txt) :
    parse_hocr_words (SpanSpec.render ⟨cls, d1, d2, d3, d4, txt⟩)
      = [SpanSpec.word ⟨cls, d1, d2, d3, d4, txt⟩] :=
  parse_single ⟨hcls, h1, h2, h3, h4, ht, hlt⟩

theorem C7_witness :
    parse_hocr_words exSpanUpper.render = [exSpanUpper.word] ∧
    parse_hocr_words exSpan.render = [exSpan.word] :=
  ⟨C7_class_case_insensitive "OCRX_WORD".data "10".data "20".data "50".data "40".data
      "Hello".data (by decide) (by decide) (by decide) (by decide) (by decide)
      (by decide) (by decide),
    C7_class_case_insensitive "ocrx_word".data "10".data "20".data "50".data "40".data
      "Hello".data (by decide) (by decide) (by decide) (by decide) (by decide)
      (by decide) (by decide)⟩

/-- C8: the bounding-box component order is preserved verbatim from the
markup to the record: the first captured number becomes `x1`, the second
`y1`, the third `x2`, the fourth `y2`. -/
theorem C8_bbox_order_verbatim (d1 d2 d3 d4 txt : PyStr)
    (h1 : DigitStr d1) (h2 : DigitStr d2) (h3 : DigitStr d3) (h4 : DigitStr d4)
    (ht : txt ≠ []) (hlt : '<' ∉ txt) :
    parse_hocr_words (SpanSpec.render ⟨"ocrx_word".data, d1, d2, d3, d4, txt⟩)
      = [Word.mk (pyStrip txt) (natOfDigits d1 : Int) (natOfDigits d2 : Int)
          (natOfDigits d3 : Int) (natOfDigits d4 : Int)] := by
  refine parse_single ⟨?_, h1, h2, h3, h4, ht, hlt⟩
  rfl

theorem C8_witness :
    parse_hocr_words exSpan.render = [Word.mk "Hello".data 10 20 50 40] := by
  have h := C8_bbox_order_verbatim "10".data "20".data "50".data "40".data "Hello".data
    (by decide) (by decide) (by decide) (by decide) (by decide) (by decide)
  exact h.trans (by decide)

/-- C9, counterexample: with one whitespace-only word (text stripped to
empty) and one word `Hi`, the handler joins only the non-empty texts, so
`extractedText` is `Hi`, not the first 500 characters of all texts joined
by single spaces, which would be ` Hi` with a leading space. -/
theorem C9_counterexample :
    (convert_hocr_to_pdf reqTwoWords).1.extractedText = some "Hi".data ∧
    (convert_hocr_to_pdf reqTwoWords).1.extractedText ≠
      some ((joinSpace ((parse_hocr_words reqTwoWords.hocr).map Word.text)).take 500) := by
  decide

/-- C9 (amended): on a successful conversion with at least one word, the
`extractedText` field is the first 500 characters of the non-empty texts of
the extracted words joined by single spaces, in extraction order (words
whose stripped text is empty are dropped before joining). -/
theorem C9_extracted_text (req : ConvertRequest) (bs : List Nat)
    (h1 : req.hocr ≠ []) (h2 : req.originalPdf ≠ [])
    (hdec : pyB64Decode req.originalPdf = Except.ok bs)
    (hwords : parse_hocr_words req.hocr ≠ []) :
    (convert_hocr_to_pdf req).1.extractedText
      = some ((joinSpace (((parse_hocr_words req.hocr).map Word.text).filter
          (fun t => !t.isEmpty))).take 500) := by
  unfold convert_hocr_to_pdf
  rw [if_neg h1, if_neg h2, hdec]
  simp only [hwords, if_neg hwords, if_false]
  by_cases hft : (joinSpace (((parse_hocr_words req.hocr).map Word.text).filter
      (fun t => !t.isEmpty))).isEmpty = true
  · simp only [hft, if_true, if_pos]
    rw [List.isEmpty_iff.mp hft]
    rfl
  · simp only [hft, if_false]
    rfl

theorem C9_witness :
    (convert_hocr_to_pdf reqTwoWords).1.extractedText
      = some ((joinSpace (((parse_hocr_words reqTwoWords.hocr).map Word.text).filter
          (fun t => !t.isEmpty))).take 500) :=
  C9_extracted_text reqTwoWords [65, 66, 67] (by decide) (by decide) (by rfl) (by decide)

/-- C10: on every successful conversion with at least one word extracted,
the `searchablePdf` of the response is the `originalPdf` of the request,
unchanged — the handler never adds a text layer to the PDF. -/
theorem C10_pdf_passthrough (req : ConvertRequest) (bs : List Nat)
    (h1 : req.hocr ≠ []) (h2 : req.originalPdf ≠ [])
    (hdec : pyB64Decode req.originalPdf = Except.ok bs)
    (hwords : parse_hocr_words req.hocr ≠ []) :
    (convert_hocr_to_pdf req).1.success = true ∧
    (convert_hocr_to_pdf req).1.searchablePdf = some req.originalPdf ∧
    (convert_hocr_to_pdf req).1.wordsExtracted = some (parse_hocr_words req.hocr).length ∧
    (convert_hocr_to_pdf req).2 = 200 := by
  unfold convert_hocr_to_pdf
  rw [if_neg h1, if_neg h2, hdec]
  simp [hwords]

theorem C10_witness :
    (convert_hocr_to_pdf reqOneWord).1.success = true ∧
    (convert_hocr_to_pdf reqOneWord).1.searchablePdf = some reqOneWord.originalPdf ∧
    (convert_hocr_to_pdf reqOneWord).1.wordsExtracted
      = some (parse_hocr_words reqOneWord.hocr).length ∧
    (convert_hocr_to_pdf reqOneWord).2 = 200 :=
  C10_pdf_passthrough reqOneWord [65, 66, 67] (by decide) (by decide) (by rfl) (by decide)

end HocrPdf
